import Mathlib

/-!
Verification development for the pulsation-pattern matching engine of the
FOAM repository (file pypulse/functions_for_gyre.py, function
chisq_longest_sequence and its helpers generate_obs_series and
generate_thry_series, plus the segment loop of
theoretical_pattern_from_dfrow).

Modelling conventions:
* Python floats are embedded as exact rationals; radial orders as integers.
* numpy arrays become Lean lists; np.where-based first-minimum selection
  becomes the function firstMinIdx below.
* A Python exception (IndexError, ValueError) is embedded as the value
  none of an Option-returning function.
-/

namespace FOAM

/-- MatchedPair is one row of the pairs_orders bookkeeping list built in
chisq_longest_sequence: the observed period, its best matching theoretical
period, the radial order of that theoretical period, and the chi-square of
the match. -/
structure MatchedPair where
  operiod : ℚ
  tperiod : ℚ
  order : ℤ
  chisq : ℚ
deriving DecidableEq, Repr

instance : Inhabited MatchedPair := ⟨⟨0, 0, 0, 0⟩⟩

/-- Index of the first minimum of a list of rationals, embedding the numpy
idiom np.where(xs == min(xs))[0][0] used throughout the source. -/
def firstMinIdx : List ℚ → ℕ
  | [] => 0
  | [_] => 0
  | a :: b :: l =>
    let j := firstMinIdx (b :: l)
    if a ≤ (b :: l).getD j 0 then 0 else j + 1

/-- The chi-square array computed for one observed period against every
theoretical period, embedding line 453 of functions_for_gyre.py. -/
def chisqArray (tperiods : List ℚ) (err period : ℚ) : List ℚ :=
  tperiods.map (fun tperiod => ((period - tperiod) / err) ^ 2)

/-- Best match of one observed period, embedding lines 453-461: build the
chi-square array, locate its first minimum, and record the theoretical
period, order and chi-square found there. -/
def matchPair (tperiods : List ℚ) (orders : List ℤ) (err period : ℚ) : MatchedPair :=
  let chisqs := chisqArray tperiods err period
  let j := firstMinIdx chisqs
  ⟨period, tperiods.getD j 0, orders.getD j 0, chisqs.getD j 0⟩

/-- The pairs_orders list of chisq_longest_sequence, lines 450-463: one
MatchedPair per observed period, in observed order. The source indexes
operiods_errors with the running index of operiods; the zip below is the
same as long as both lists have the same length. -/
def pairsOrders (tperiods : List ℚ) (orders : List ℤ)
    (operiods operiods_errors : List ℚ) : List MatchedPair :=
  (operiods.zip operiods_errors).map (fun pe => matchPair tperiods orders pe.2 pe.1)

/-- Segmentation loop of chisq_longest_sequence, lines 480-496, translated
line by line. The Python loop runs over pairs_orders[:-1]; at each index it
appends sett to current and, when the pair at the NEXT index does not have
the consecutive radial order, flushes current. At the final index
(ii == lp-1) the loop appends sett once more and flushes. Since sett at
that point is the pair at index O-2, the pair at index O-1 never enters any
sequence and the pair at index O-2 is pushed twice: the translation keeps
that behaviour exactly. The one and two element cases produce no loop
iterations and one final iteration respectively. -/
def buildSeqs (step : ℤ) (current : List MatchedPair) :
    List MatchedPair → List (List MatchedPair)
  | [] => []
  | [_] => []
  | [x, y] =>
    if |x.order| = |y.order| + step then
      [(current ++ [x]) ++ [x]]
    else
      [current ++ [x], [x]]
  | x :: y :: z :: l =>
    if |x.order| = |y.order| + step then
      buildSeqs step (current ++ [x]) (y :: z :: l)
    else
      (current ++ [x]) :: buildSeqs step [] (y :: z :: l)

/-- Direction heuristic of lines 475-478: compare the first two radial
orders; orders[1] == orders[0] - 1 means increasing radial order and gives
step -1, anything else gives step 1. -/
def increaseOrDecrease (orders : List ℤ) : ℤ :=
  if orders.getD 1 0 = orders.getD 0 0 - 1 then -1 else 1

/-- Builtin max over a list of lengths, embedding max(len_list) at line
498 for a nonempty list of sequences. -/
def maxNat (l : List ℕ) : ℕ := l.foldr max 0

/-- Sum of the chi-square column of one sequence, np.sum(sequences[ii][:,-1])
at line 506. -/
def chiSum (run : List MatchedPair) : ℚ := (run.map MatchedPair.chisq).sum

/-- Mean chi-square score of one sequence, line 506. -/
def chiScore (run : List MatchedPair) : ℚ := chiSum run / (run.length : ℚ)

/-- Indices of the sequences of maximal length, in ascending order:
longest = np.where(len_list == max(len_list))[0] at line 498. -/
def longestIdxs (seqs : List (List MatchedPair)) : List ℕ :=
  (List.range seqs.length).filter
    (fun i => (seqs.map List.length).getD i 0 = maxNat (seqs.map List.length))

/-- Mean chi-square scores of the length-tied sequences, line 506. -/
def tiedScores (seqs : List (List MatchedPair)) : List ℚ :=
  (longestIdxs seqs).map (fun ii => chiScore (seqs.getD ii []))

/-- Selection of the longest sequence, lines 497-508: find all indices of
maximal length; if there is exactly one take it, otherwise score each tied
sequence by its mean chi-square and take the first minimum. -/
def selectSeq (seqs : List (List MatchedPair)) : List MatchedPair :=
  match longestIdxs seqs with
  | [] => []
  | [i] => seqs.getD i []
  | _ :: _ :: _ =>
    let min_score := firstMinIdx (tiedScores seqs)
    seqs.getD ((longestIdxs seqs).getD min_score 0) []

/-- Alignment reconstruction of lines 516-531: for every observed position
i walk the theoretical spectrum starting at thr_ind_start and emit the
sentinel pair (-1, -1) whenever the index leaves the spectrum. -/
def alignPattern (tperiods : List ℚ) (orders : List ℤ) (thr_ind_start : ℤ)
    (O : ℕ) : List (ℚ × ℤ) :=
  (List.range O).map (fun (i : ℕ) =>
    let thr_ind_current : ℤ := thr_ind_start + (i : ℤ)
    if thr_ind_current < 0 ∨ (tperiods.length : ℤ) ≤ thr_ind_current then
      (-1, -1)
    else
      (tperiods.getD thr_ind_current.toNat 0, orders.getD thr_ind_current.toNat 0))

/-- Observed period spacing series of generate_obs_series, lines 576-582:
absolute adjacent differences scaled by 86400. -/
def generate_obs_series_spacings : List ℚ → List ℚ
  | [] => []
  | [_] => []
  | a :: b :: l => |a - b| * 86400 :: generate_obs_series_spacings (b :: l)

/-- Squares of the propagated spacing errors of generate_obs_series,
line 581: the source computes sqrt(e_k^2 + e_(k+1)^2) * 86400; working with
rationals we carry the square of that value, which determines it together
with nonnegativity. The real valued square root form is generate_obs_series_R
below. -/
def generate_obs_series_errorsSq : List ℚ → List ℚ
  | [] => []
  | [_] => []
  | a :: b :: l => (a ^ 2 + b ^ 2) * 86400 ^ 2 :: generate_obs_series_errorsSq (b :: l)

/-- Theoretical period spacing series of generate_thry_series, lines
595-599. -/
def generate_thry_series : List ℚ → List ℚ
  | [] => []
  | [_] => []
  | a :: b :: l => |a - b| * 86400 :: generate_thry_series (b :: l)

/-- Final spacing chi-square of line 543. The source computes
sum(((obs - thr)/err)^2)/len(obs): with err the square root of errSq the
summand equals (obs - thr)^2/errSq, which is the form used here. -/
def seriesChi2 (obs thr errSq : List ℚ) : ℚ :=
  ((obs.zip (thr.zip errSq)).map (fun x => (x.1 - x.2.1) ^ 2 / x.2.2)).sum
    / (obs.length : ℚ)

/-- Full engine chisq_longest_sequence, lines 425-563, for plot=False.
Returns none where the Python function raises: an IndexError at line 475
when orders has fewer than two entries, and a ValueError at line 498 when
the sequence list is empty, which happens exactly when there are fewer than
two observed periods. When there are fewer theoretical than observed
periods it returns the sentinel triple of line 447 with penalty 1e16. -/
def chisq_longest_sequence (tperiods : List ℚ) (orders : List ℤ)
    (operiods operiods_errors : List ℚ) : Option (ℚ × List ℚ × List ℤ) :=
  if tperiods.length < operiods.length then
    some (10 ^ 16, List.replicate operiods.length (-1),
          List.replicate operiods.length (-1))
  else if orders.length < 2 then none
  else
    let pairs_orders := pairsOrders tperiods orders operiods operiods_errors
    let step := increaseOrDecrease orders
    let sequences := buildSeqs step [] pairs_orders
    if sequences.isEmpty then none
    else
      let lseq := selectSeq sequences
      let hd := lseq.headD default
      let obs_ordering_ind := operiods.indexOf hd.operiod
      let thr_ordering_ind := tperiods.indexOf hd.tperiod
      let thr_ind_start : ℤ := (thr_ordering_ind : ℤ) - (obs_ordering_ind : ℤ)
      let aligned := alignPattern tperiods orders thr_ind_start operiods.length
      let final_theoretical_periods := aligned.map Prod.fst
      let corresponding_orders := aligned.map Prod.snd
      let obs_series := generate_obs_series_spacings operiods
      let obs_series_errorsSq := generate_obs_series_errorsSq operiods_errors
      let thr_series := generate_thry_series final_theoretical_periods
      let series_chi2 := seriesChi2 obs_series thr_series obs_series_errorsSq
      some (series_chi2, final_theoretical_periods, corresponding_orders)

/-- Real valued translation of generate_obs_series, lines 566-582, exactly
as in the source: for each adjacent pair of periods the spacing
abs(p_k - p_(k+1)) * 86400 and for each adjacent pair of errors the
propagated error sqrt(e_k^2 + e_(k+1)^2) * 86400. The two input lists are
walked in lockstep as the source does via a shared index. -/
noncomputable def generate_obs_series_R : List ℝ → List ℝ → List ℝ × List ℝ
  | a :: b :: l, e :: f :: m =>
    let rest := generate_obs_series_R (b :: l) (f :: m)
    (|a - b| * 86400 :: rest.1, Real.sqrt (e ^ 2 + f ^ 2) * 86400 :: rest.2)
  | _, _ => ([], [])

/-- np.delete with the index set np.where(condition): returns a NEW list
holding the entries whose value does not satisfy the condition. numpy
never mutates its argument array; the caller must use the returned copy. -/
def npDeleteWhere (l : List ℚ) (p : ℚ → Bool) : List ℚ :=
  l.filter (fun x => ! p x)

/-- Builtin max over a nonempty list of rationals, as max(ouput_pulsations)
at lines 193 and 203. -/
def maxQ : List ℚ → ℚ
  | [] => 0
  | a :: l => l.foldl max a

/-- Per-segment loop of theoretical_pattern_from_dfrow, lines 184-226, for
method_build_series chisq_longest_sequence. isFreq selects the
which_observable branch (frequency or period). For each split-off part of
the observed pattern the source appends 0 to ouput_pulsations as an
interruption marker, evaluates np.delete on freqs or periods at lines
189-205 WITHOUT assigning its result (binding _deleted below, unused
afterwards, exactly as the source discards the returned copy), and then
calls chisq_longest_sequence on periods and orders. The second result
component records, per segment, the frequency and period arrays available
to the matching stage. A none from the engine aborts the whole loop, as
the uncaught Python exception would. -/
def theoretical_pattern_parts (freqs periods : List ℚ) (orders : List ℤ)
    (isFreq : Bool) (acc : List ℚ) :
    List (List ℚ × List ℚ) → Option (List ℚ × List (List ℚ × List ℚ))
  | [] => some (acc, [])
  | (obs_part, obs_err_part) :: rest =>
    let acc1 := if 0 < acc.length then acc ++ [0] else acc
    let _deleted :=
      if isFreq then
        (if 0 < acc1.length then
          (if orders.getD 1 0 = orders.getD 0 0 - 1 then
            npDeleteWhere freqs (fun x => decide (acc1.getD (acc1.length - 2) 0 ≤ x))
          else
            npDeleteWhere freqs (fun x => decide (x ≤ maxQ acc1)))
        else freqs)
      else
        (if 0 < acc1.length then
          (if orders.getD 1 0 = orders.getD 0 0 - 1 then
            npDeleteWhere periods (fun x => decide (x ≤ maxQ acc1))
          else
            npDeleteWhere periods (fun x => decide (acc1.getD (acc1.length - 2) 0 ≤ x)))
        else periods)
    let ObsPeriod := if isFreq then obs_part.map (fun x => 1 / x) else obs_part
    let ObsErrP :=
      if isFreq then List.zipWith (fun e o => e / o ^ 2) obs_err_part obs_part
      else obs_err_part
    match chisq_longest_sequence periods orders ObsPeriod ObsErrP with
    | none => none
    | some (_, final_theoretical_periods, _) =>
      let sel :=
        if isFreq then final_theoretical_periods.map (fun x => 1 / x)
        else final_theoretical_periods
      match theoretical_pattern_parts freqs periods orders isFreq (acc1 ++ sel) rest with
      | none => none
      | some (out, used) => some (out, (freqs, periods) :: used)

/-- Property stated by the specification for the spacing series builder
and the alignment chi-square, written from the words of the spec: N-1
spacings of absolute adjacent differences scaled by 86400 for observed and
theoretical series alike, propagated errors sqrt(e_i^2 + e_(i+1)^2)*86400
for the observed series, and the final chi-square as the error weighted
sum of squared spacing differences divided by N-1. The arguments are the
observed periods, their errors and the aligned theoretical periods. -/
def SpacingSeriesSpec (ps es tps : List ℚ) : Prop :=
  (generate_obs_series_spacings ps).length = ps.length - 1 ∧
  (generate_thry_series tps).length = tps.length - 1 ∧
  (∀ i, i + 1 < ps.length →
    (generate_obs_series_spacings ps).getD i 0 =
      |ps.getD i 0 - ps.getD (i + 1) 0| * 86400) ∧
  (∀ i, i + 1 < tps.length →
    (generate_thry_series tps).getD i 0 =
      |tps.getD i 0 - tps.getD (i + 1) 0| * 86400) ∧
  (∀ i, i + 1 < es.length →
    ((generate_obs_series_R (ps.map ((Rat.cast : ℚ → ℝ))) (es.map ((Rat.cast : ℚ → ℝ)))).2).getD i 0 =
      Real.sqrt ((es.getD i 0 : ℝ) ^ 2 + (es.getD (i + 1) 0 : ℝ) ^ 2) * 86400 ∧
    ((generate_obs_series_errorsSq es).getD i 0 : ℝ) =
      (((generate_obs_series_R (ps.map ((Rat.cast : ℚ → ℝ))) (es.map ((Rat.cast : ℚ → ℝ)))).2).getD i 0) ^ 2) ∧
  ((seriesChi2 (generate_obs_series_spacings ps) (generate_thry_series tps)
      (generate_obs_series_errorsSq es) : ℝ) =
    (∑ i ∈ Finset.range (ps.length - 1),
      ((((generate_obs_series_spacings ps).getD i 0 : ℝ) -
        ((generate_thry_series tps).getD i 0 : ℝ)) /
       (Real.sqrt ((es.getD i 0 : ℝ) ^ 2 + (es.getD (i + 1) 0 : ℝ) ^ 2) * 86400)) ^ 2) /
    ((ps.length - 1 : ℕ) : ℝ))

/-! ### Helper lemmas -/

theorem firstMinIdx_lt_length : ∀ (l : List ℚ), l ≠ [] → firstMinIdx l < l.length
  | [], h => absurd rfl h
  | [_], _ => Nat.zero_lt_one
  | a :: b :: l, _ => by
    simp only [firstMinIdx]
    split
    · simp
    · have ih := firstMinIdx_lt_length (b :: l) (by simp)
      simpa using Nat.succ_lt_succ ih

theorem firstMinIdx_min : ∀ (l : List ℚ) (k : ℕ), k < l.length →
    l.getD (firstMinIdx l) 0 ≤ l.getD k 0
  | [], _, h => by simp at h
  | [_], k, h => by
    have hk : k = 0 := by simp at h; omega
    subst hk
    simp [firstMinIdx]
  | a :: b :: l, k, h => by
    have ih := fun k hk => firstMinIdx_min (b :: l) k hk
    simp only [firstMinIdx]
    split
    · rename_i hle
      have h3 : a ≤ (b :: l).getD (firstMinIdx (b :: l)) 0 := by simpa using hle
      match k with
      | 0 => simp
      | k + 1 =>
        have hk : k < (b :: l).length := by simp only [List.length_cons] at h ⊢; omega
        simpa using le_trans h3 (ih k hk)
    · rename_i hle
      have h3 : (b :: l).getD (firstMinIdx (b :: l)) 0 ≤ a := by
        have h4 : ¬ a ≤ (b :: l).getD (firstMinIdx (b :: l)) 0 := by simpa using hle
        exact le_of_not_le h4
      match k with
      | 0 => simpa using h3
      | k + 1 =>
        have hk : k < (b :: l).length := by simp only [List.length_cons] at h ⊢; omega
        simpa using ih k hk

theorem firstMinIdx_first : ∀ (l : List ℚ) (k : ℕ), k < firstMinIdx l →
    l.getD (firstMinIdx l) 0 < l.getD k 0
  | [], _, h => by simp [firstMinIdx] at h
  | [_], _, h => by simp [firstMinIdx] at h
  | a :: b :: l, k, h => by
    have ih := fun k hk => firstMinIdx_first (b :: l) k hk
    simp only [firstMinIdx] at h ⊢
    split at h
    · exact absurd h (Nat.not_lt_zero k)
    · rename_i hle
      rw [if_neg hle]
      have h3 : (b :: l).getD (firstMinIdx (b :: l)) 0 < a := by
        have h4 : ¬ a ≤ (b :: l).getD (firstMinIdx (b :: l)) 0 := by simpa using hle
        exact lt_of_not_le h4
      match k with
      | 0 => simpa using h3
      | k + 1 =>
        have hk : k < firstMinIdx (b :: l) := by omega
        simpa using ih k hk

theorem getD_eq_getElem' {α : Type} (l : List α) (n : ℕ) (d : α)
    (h : n < l.length) : l.getD n d = l[n] := by
  simp [List.getElem?_eq_getElem h]

theorem getD_map_of_lt {α β : Type} (f : α → β) :
    ∀ (l : List α) (k : ℕ), k < l.length → ∀ (d : α) (d' : β),
      (l.map f).getD k d' = f (l.getD k d)
  | [], k, h => by simp at h
  | a :: l, 0, _ => by simp
  | a :: l, k + 1, h => by
    intro d d'
    have hk : k < l.length := by simp only [List.length_cons] at h; omega
    simpa using getD_map_of_lt f l k hk d d'

theorem getD_zip_of_lt {α β : Type} :
    ∀ (l1 : List α) (l2 : List β) (k : ℕ), k < l1.length → k < l2.length →
      ∀ (d1 : α) (d2 : β), (l1.zip l2).getD k (d1, d2) = (l1.getD k d1, l2.getD k d2)
  | [], _, k, h1, _ => by simp at h1
  | _ :: _, [], k, _, h2 => by simp at h2
  | a :: l1, b :: l2, 0, _, _ => by simp
  | a :: l1, b :: l2, k + 1, h1, h2 => by
    intro d1 d2
    have hk1 : k < l1.length := by simp only [List.length_cons] at h1; omega
    have hk2 : k < l2.length := by simp only [List.length_cons] at h2; omega
    simpa using getD_zip_of_lt l1 l2 k hk1 hk2 d1 d2

theorem getD_mem_of_lt {α : Type} (l : List α) (k : ℕ) (d : α)
    (h : k < l.length) : l.getD k d ∈ l := by
  rw [getD_eq_getElem' l k d h]
  exact List.getElem_mem h

theorem le_maxNat : ∀ (l : List ℕ), ∀ x ∈ l, x ≤ maxNat l
  | [], x, hx => by simp at hx
  | a :: l, x, hx => by
    rcases List.mem_cons.mp hx with h | h
    · subst h; exact le_max_left _ _
    · exact le_trans (le_maxNat l x h) (le_max_right _ _)

theorem maxNat_mem : ∀ (l : List ℕ), l ≠ [] → maxNat l ∈ l
  | [], h => absurd rfl h
  | [a], _ => by simp [maxNat]
  | a :: b :: l, _ => by
    have ih := maxNat_mem (b :: l) (by simp)
    have hm : maxNat (a :: b :: l) = max a (maxNat (b :: l)) := rfl
    rw [hm]
    rcases le_total a (maxNat (b :: l)) with h | h
    · rw [max_eq_right h]; exact List.mem_cons_of_mem a ih
    · rw [max_eq_left h]; exact List.mem_cons_self a _

theorem getD_range_map {α : Type} (f : ℕ → α) (O i : ℕ) (h : i < O) (d : α) :
    ((List.range O).map f).getD i d = f i := by
  have h' : i < (List.range O).length := by simpa using h
  rw [getD_map_of_lt f (List.range O) i h' 0 d]
  congr 1
  rw [getD_eq_getElem' _ i 0 h']
  simp

/-! ### Claim theorems -/

/-- C1: the claim states that the run segmenter partitions the O matched
pairs into runs covering every pair exactly once with the final pair
terminating the last run. The code does not do this: at the failing input
tperiods = [1,2], orders = [-2,-1], operiods = [1,2], errors = [1,1] the
matched pairs are p0 = (1,1,-2,0) and p1 = (2,2,-1,0), with consecutive
radial orders, yet the produced run list is [[p0, p0]]: the first pair is
duplicated and the final matched pair p1 appears in no run, because the
closing branch of the loop (ii == lp-1 at line 493) appends sett, the pair
at index O-2, a second time instead of the pair at index O-1. -/
theorem C1_run_segmenter_failing_eval :
    pairsOrders [1, 2] [-2, -1] [1, 2] [1, 1] =
      [⟨1, 1, -2, 0⟩, ⟨2, 2, -1, 0⟩] ∧
    buildSeqs (increaseOrDecrease [-2, -1]) []
        (pairsOrders [1, 2] [-2, -1] [1, 2] [1, 1]) =
      [[⟨1, 1, -2, 0⟩, ⟨1, 1, -2, 0⟩]] ∧
    (⟨2, 2, -1, 0⟩ : MatchedPair) ∉
      (buildSeqs (increaseOrDecrease [-2, -1]) []
        (pairsOrders [1, 2] [-2, -1] [1, 2] [1, 1])).flatten := by
  refine ⟨by with_unfolding_all decide, by with_unfolding_all decide,
    by with_unfolding_all decide⟩

/-- C2: the claim states that a single observed period yields exactly one
run of length 1 and that the engine does not fail. The code fails instead:
for one observed period and one theoretical period the direction heuristic
indexes orders[1] (IndexError), and for one observed period and at least
two theoretical periods the loop over pairs_orders[:-1] never runs, the
sequence list stays empty, and max(len_list) raises ValueError. Both
failure paths are the value none of the embedding. -/
theorem C2_single_observed_engine_fails :
    chisq_longest_sequence [1] [-1] [1] [1 / 10] = none ∧
    chisq_longest_sequence [1, 2] [-2, -1] [1] [1 / 10] = none := by
  refine ⟨by with_unfolding_all decide, by with_unfolding_all decide⟩

/-- C6: with fewer theoretical than observed periods the engine returns,
from the guard at lines 446-447 and before any matching or segmentation
work, the sentinel worst pattern: all theoretical periods -1, all radial
orders -1, and the maximal penalty score 1e16, rather than failing. -/
theorem C6_insufficient_theory_sentinel (tperiods : List ℚ) (orders : List ℤ)
    (operiods operiods_errors : List ℚ)
    (h : tperiods.length < operiods.length) :
    chisq_longest_sequence tperiods orders operiods operiods_errors =
      some (10 ^ 16, List.replicate operiods.length (-1),
            List.replicate operiods.length (-1)) := by
  unfold chisq_longest_sequence
  rw [if_pos h]

/-- Witness for C6 at scenario B of the specification: three theoretical
periods against five observed ones. -/
theorem C6_insufficient_theory_sentinel_witness :
    ([(1 : ℚ), 2, 3].length < [(1 : ℚ), 2, 3, 4, 5].length) ∧
    chisq_longest_sequence [1, 2, 3] [-3, -2, -1] [1, 2, 3, 4, 5] [1, 1, 1, 1, 1] =
      some (10 ^ 16, List.replicate 5 (-1), List.replicate 5 (-1)) :=
  ⟨by decide,
   by rw [C6_insufficient_theory_sentinel [1, 2, 3] [-3, -2, -1]
        [1, 2, 3, 4, 5] [1, 1, 1, 1, 1] (by decide)]
      rfl⟩

/-- C8 counterexample: on the concrete input of scenario A the claim says
the aligned pattern is [(1.1,-4),(1.2,-3)]; the code returns the aligned
periods [1.0, 1.1] with orders [-5, -4] instead, because the observed
period 1.05 is exactly equidistant from the theoretical periods 1.0 and
1.1 (both squared residuals are 25) and the first-minimum tie-break picks
index 0. -/
theorem C8_scenario_A_counterexample :
    (chisq_longest_sequence [1, 11 / 10, 6 / 5, 13 / 10, 7 / 5]
        [-5, -4, -3, -2, -1] [21 / 20, 61 / 50] [1 / 100, 1 / 100]).map
      (fun r => r.2.1) ≠ some [11 / 10, 6 / 5] := by
  with_unfolding_all decide

/-- C8 amended: on the scenario A input the matcher pairs observed 1.05
with theoretical index 0 (period 1.0, order -5, chi-square 25, a tie with
index 1 broken to the lower index) and observed 1.22 with index 2 (period
1.2, order -3, chi-square 4); the matched orders are not consecutive, the
segmenter produces two runs both holding only the first matched pair, the
selector keeps the first, the offset is 0, and the engine returns the
aligned pattern [(1.0,-5),(1.1,-4)] with spacing chi-square 49/2. -/
theorem C8_scenario_A_amended :
    matchPair [1, 11 / 10, 6 / 5, 13 / 10, 7 / 5] [-5, -4, -3, -2, -1]
        (1 / 100) (21 / 20) = ⟨21 / 20, 1, -5, 25⟩ ∧
    matchPair [1, 11 / 10, 6 / 5, 13 / 10, 7 / 5] [-5, -4, -3, -2, -1]
        (1 / 100) (61 / 50) = ⟨61 / 50, 6 / 5, -3, 4⟩ ∧
    buildSeqs (increaseOrDecrease [-5, -4, -3, -2, -1]) []
        (pairsOrders [1, 11 / 10, 6 / 5, 13 / 10, 7 / 5] [-5, -4, -3, -2, -1]
          [21 / 20, 61 / 50] [1 / 100, 1 / 100]) =
      [[⟨21 / 20, 1, -5, 25⟩], [⟨21 / 20, 1, -5, 25⟩]] ∧
    chisq_longest_sequence [1, 11 / 10, 6 / 5, 13 / 10, 7 / 5]
        [-5, -4, -3, -2, -1] [21 / 20, 61 / 50] [1 / 100, 1 / 100] =
      some (49 / 2, [1, 11 / 10], [-5, -4]) := by
  refine ⟨by with_unfolding_all decide, by with_unfolding_all decide,
    by with_unfolding_all decide, by with_unfolding_all decide⟩

/-- C9: the engine is a pure function of its four inputs: two invocations
on equal inputs return equal outputs. The Python function (with the plot
flag off) reads no module state and mutates nothing, which the embedding
as a Lean function makes formal. -/
theorem C9_determinism (t1 t2 : List ℚ) (o1 o2 : List ℤ)
    (p1 p2 e1 e2 : List ℚ)
    (ht : t1 = t2) (ho : o1 = o2) (hp : p1 = p2) (he : e1 = e2) :
    chisq_longest_sequence t1 o1 p1 e1 = chisq_longest_sequence t2 o2 p2 e2 := by
  rw [ht, ho, hp, he]

/-- Witness for C9 at a concrete input. -/
theorem C9_determinism_witness :
    chisq_longest_sequence [1, 2] [-2, -1] [1, 2] [1, 1] =
      chisq_longest_sequence [1, 2] [-2, -1] [1, 2] [1, 1] :=
  C9_determinism [1, 2] [1, 2] [-2, -1] [-2, -1] [1, 2] [1, 2] [1, 1] [1, 1]
    rfl rfl rfl rfl

/-- C5: with offset = theoreticalAnchorIndex - observedAnchorIndex, the
aligned pattern has length O and at each position i in [0,O) carries the
theoretical (period, order) pair at index offset + i when that index lies
in [0,T), and the sentinel pair (-1,-1) when it falls outside, as lines
516-531 compute. -/
theorem C5_pattern_aligner_spec (tperiods : List ℚ) (orders : List ℤ)
    (observedAnchorIndex theoreticalAnchorIndex O : ℕ) :
    (alignPattern tperiods orders
        ((theoreticalAnchorIndex : ℤ) - (observedAnchorIndex : ℤ)) O).length = O ∧
    ∀ i : ℕ, i < O →
      ((0 ≤ (theoreticalAnchorIndex : ℤ) - (observedAnchorIndex : ℤ) + i ∧
        (theoreticalAnchorIndex : ℤ) - (observedAnchorIndex : ℤ) + i <
          (tperiods.length : ℤ)) →
        (alignPattern tperiods orders
            ((theoreticalAnchorIndex : ℤ) - (observedAnchorIndex : ℤ)) O).getD i (0, 0) =
          (tperiods.getD ((theoreticalAnchorIndex : ℤ) - (observedAnchorIndex : ℤ) + i).toNat 0,
           orders.getD ((theoreticalAnchorIndex : ℤ) - (observedAnchorIndex : ℤ) + i).toNat 0)) ∧
      (((theoreticalAnchorIndex : ℤ) - (observedAnchorIndex : ℤ) + i < 0 ∨
        (tperiods.length : ℤ) ≤
          (theoreticalAnchorIndex : ℤ) - (observedAnchorIndex : ℤ) + i) →
        (alignPattern tperiods orders
            ((theoreticalAnchorIndex : ℤ) - (observedAnchorIndex : ℤ)) O).getD i (0, 0) =
          (-1, -1)) := by
  constructor
  · simp [alignPattern]
  · intro i hi
    rw [alignPattern, getD_range_map _ O i hi]
    constructor
    · intro hin
      rw [if_neg (by omega)]
    · intro hout
      rw [if_pos hout]

/-- Witness for C5 at a trailing overflow: two theoretical periods, anchor
offset 1, observed position 1 maps to theoretical index 2 which is out of
bounds, so the sentinel pair is emitted. -/
theorem C5_pattern_aligner_spec_witness :
    (alignPattern [1, 2] [-2, -1] (((1 : ℕ) : ℤ) - ((0 : ℕ) : ℤ)) 2).getD 1 (0, 0) =
      (-1, -1) :=
  ((C5_pattern_aligner_spec [1, 2] [-2, -1] 0 1 2).2 1 (by decide)).2 (by decide)

/-- C3: the matcher builds, for observed period p at position i with error
sigma, the chi-square array ((p - t_j)/sigma)^2 over all theoretical
periods, and records the pair at the first index attaining the minimum:
there is an index j below T with the matched pair equal to
(p, t_j, order_j, ((p - t_j)/sigma)^2), whose chi-square is a lower bound
of the whole array and strictly below every entry at an earlier index. The
list of matched pairs has one entry per observed period. -/
theorem C3_sequence_matcher_spec (tperiods : List ℚ) (orders : List ℤ)
    (operiods operiods_errors : List ℚ) (i : ℕ)
    (hT : tperiods ≠ [])
    (he : operiods_errors.length = operiods.length)
    (hi : i < operiods.length)
    (_hσ : 0 < operiods_errors.getD i 0) :
    (pairsOrders tperiods orders operiods operiods_errors).length = operiods.length ∧
    (∀ k, k < tperiods.length →
      (chisqArray tperiods (operiods_errors.getD i 0) (operiods.getD i 0)).getD k 0 =
        ((operiods.getD i 0 - tperiods.getD k 0) / operiods_errors.getD i 0) ^ 2) ∧
    ∃ j, j < tperiods.length ∧
      (pairsOrders tperiods orders operiods operiods_errors).getD i default =
        ⟨operiods.getD i 0, tperiods.getD j 0, orders.getD j 0,
         ((operiods.getD i 0 - tperiods.getD j 0) / operiods_errors.getD i 0) ^ 2⟩ ∧
      (∀ k, k < tperiods.length →
        ((operiods.getD i 0 - tperiods.getD j 0) / operiods_errors.getD i 0) ^ 2 ≤
          ((operiods.getD i 0 - tperiods.getD k 0) / operiods_errors.getD i 0) ^ 2) ∧
      (∀ k, k < j →
        ((operiods.getD i 0 - tperiods.getD j 0) / operiods_errors.getD i 0) ^ 2 <
          ((operiods.getD i 0 - tperiods.getD k 0) / operiods_errors.getD i 0) ^ 2) := by
  set σ := operiods_errors.getD i 0 with hσdef
  set p := operiods.getD i 0 with hpdef
  have hchis_len : (chisqArray tperiods σ p).length = tperiods.length := by
    simp [chisqArray]
  have hformula : ∀ k, k < tperiods.length →
      (chisqArray tperiods σ p).getD k 0 = ((p - tperiods.getD k 0) / σ) ^ 2 := by
    intro k hk
    exact getD_map_of_lt _ tperiods k hk 0 0
  refine ⟨?_, hformula, ?_⟩
  · simp [pairsOrders, he]
  · refine ⟨firstMinIdx (chisqArray tperiods σ p), ?_, ?_, ?_, ?_⟩
    · rw [← hchis_len]
      exact firstMinIdx_lt_length _ (by simp [chisqArray, hT])
    · have hzip : i < (operiods.zip operiods_errors).length := by
        simp [List.length_zip, he, hi]
      rw [pairsOrders, getD_map_of_lt _ _ i hzip (0, 0) default,
        getD_zip_of_lt operiods operiods_errors i hi (he ▸ hi) 0 0]
      rw [matchPair]
      have hj : firstMinIdx (chisqArray tperiods σ p) < tperiods.length := by
        rw [← hchis_len]
        exact firstMinIdx_lt_length _ (by simp [chisqArray, hT])
      rw [hformula _ hj]
    · intro k hk
      have h1 := firstMinIdx_min (chisqArray tperiods σ p) k (by rwa [hchis_len])
      have hj : firstMinIdx (chisqArray tperiods σ p) < tperiods.length := by
        rw [← hchis_len]
        exact firstMinIdx_lt_length _ (by simp [chisqArray, hT])
      rwa [hformula _ hj, hformula _ hk] at h1
    · intro k hk
      have h1 := firstMinIdx_first (chisqArray tperiods σ p) k hk
      have hj : firstMinIdx (chisqArray tperiods σ p) < tperiods.length := by
        rw [← hchis_len]
        exact firstMinIdx_lt_length _ (by simp [chisqArray, hT])
      have hk' : k < tperiods.length := lt_trans hk hj
      rwa [hformula _ hj, hformula _ hk'] at h1

/-- Witness for C3 at a concrete input: two theoretical periods, one
observed period with positive error. -/
theorem C3_sequence_matcher_spec_witness :
    (pairsOrders [1, 2] [-2, -1] [3 / 2] [1]).length = ([3 / 2] : List ℚ).length :=
  (C3_sequence_matcher_spec [1, 2] [-2, -1] [3 / 2] [1] 0
    (by decide) (by decide) (by decide) (by decide)).1

theorem lens_getD : ∀ (seqs : List (List MatchedPair)) (i : ℕ),
    (seqs.map List.length).getD i 0 = (seqs.getD i []).length
  | [], i => by simp
  | q :: seqs, 0 => by simp
  | q :: seqs, i + 1 => by simpa using lens_getD seqs i

theorem mem_longestIdxs_iff (seqs : List (List MatchedPair)) (i : ℕ) :
    i ∈ longestIdxs seqs ↔ i < seqs.length ∧
      (seqs.getD i []).length = maxNat (seqs.map List.length) := by
  rw [longestIdxs]
  simp only [List.mem_filter, List.mem_range, decide_eq_true_eq, lens_getD]

theorem longestIdxs_ne_nil (seqs : List (List MatchedPair)) (h : seqs ≠ []) :
    longestIdxs seqs ≠ [] := by
  have hlens : seqs.map List.length ≠ [] := by
    simpa using h
  have hmem := maxNat_mem (seqs.map List.length) hlens
  obtain ⟨n, hn, hval⟩ := List.mem_iff_getElem.mp hmem
  have hn' : n < seqs.length := by simpa using hn
  have : n ∈ longestIdxs seqs := by
    rw [mem_longestIdxs_iff]
    refine ⟨hn', ?_⟩
    rw [← lens_getD seqs n, getD_eq_getElem' _ n 0 hn, hval]
  exact List.ne_nil_of_mem this

theorem tiedScores_length (seqs : List (List MatchedPair)) :
    (tiedScores seqs).length = (longestIdxs seqs).length := by
  simp [tiedScores]

theorem selectSeq_eq_chosen (seqs : List (List MatchedPair))
    (h : longestIdxs seqs ≠ []) :
    selectSeq seqs =
      seqs.getD ((longestIdxs seqs).getD (firstMinIdx (tiedScores seqs)) 0) [] := by
  unfold selectSeq
  split
  · rename_i heq
    exact absurd heq h
  · rename_i a heq
    rw [tiedScores, heq]
    simp [firstMinIdx]
  · rfl

/-- C4: the selector returns a sequence of the input list of maximal
length; among all sequences tied at that length it has the minimal mean
chi-square score; and every earlier sequence of the same maximal length
has a strictly larger score, so ties on the score keep the first
encountered sequence. -/
theorem C4_sequence_selector_spec (seqs : List (List MatchedPair))
    (hne : seqs ≠ []) :
    ∃ i, i < seqs.length ∧ selectSeq seqs = seqs.getD i [] ∧
      (∀ q ∈ seqs, q.length ≤ (seqs.getD i []).length) ∧
      (∀ q ∈ seqs, q.length = (seqs.getD i []).length →
        chiScore (seqs.getD i []) ≤ chiScore q) ∧
      (∀ j, j < i → (seqs.getD j []).length = (seqs.getD i []).length →
        chiScore (seqs.getD i []) < chiScore (seqs.getD j [])) := by
  have hL : longestIdxs seqs ≠ [] := longestIdxs_ne_nil seqs hne
  have hsc_ne : tiedScores seqs ≠ [] := by
    intro hc
    apply hL
    have := tiedScores_length seqs
    rw [hc] at this
    exact List.length_eq_zero.mp this.symm
  have hk : firstMinIdx (tiedScores seqs) < (longestIdxs seqs).length := by
    rw [← tiedScores_length seqs]
    exact firstMinIdx_lt_length _ hsc_ne
  have histar_mem : (longestIdxs seqs).getD (firstMinIdx (tiedScores seqs)) 0 ∈
      longestIdxs seqs :=
    getD_mem_of_lt _ _ 0 hk
  have h1 := (mem_longestIdxs_iff seqs _).mp histar_mem
  have hsck : (tiedScores seqs).getD (firstMinIdx (tiedScores seqs)) 0 =
      chiScore (seqs.getD ((longestIdxs seqs).getD (firstMinIdx (tiedScores seqs)) 0) []) :=
    getD_map_of_lt (fun ii => chiScore (seqs.getD ii [])) (longestIdxs seqs)
      (firstMinIdx (tiedScores seqs)) hk 0 0
  refine ⟨(longestIdxs seqs).getD (firstMinIdx (tiedScores seqs)) 0, h1.1,
    selectSeq_eq_chosen seqs hL, ?_, ?_, ?_⟩
  · intro q hq
    have hmem : q.length ∈ seqs.map List.length := List.mem_map_of_mem _ hq
    calc q.length ≤ maxNat (seqs.map List.length) := le_maxNat _ _ hmem
      _ = _ := h1.2.symm
  · intro q hq hlen
    obtain ⟨n, hn, hqn⟩ := List.mem_iff_getElem.mp hq
    have hnL : n ∈ longestIdxs seqs := by
      rw [mem_longestIdxs_iff]
      refine ⟨hn, ?_⟩
      rw [getD_eq_getElem' seqs n [] hn, hqn, hlen, h1.2]
    obtain ⟨pos, hpos, hposn⟩ := List.mem_iff_getElem.mp hnL
    have hscpos : (tiedScores seqs).getD pos 0 = chiScore (seqs.getD n []) := by
      have h := getD_map_of_lt (fun ii => chiScore (seqs.getD ii []))
        (longestIdxs seqs) pos hpos 0 0
      rw [getD_eq_getElem' _ pos 0 hpos, hposn] at h
      exact h
    have hmin := firstMinIdx_min (tiedScores seqs) pos
      (by rwa [tiedScores_length seqs])
    rw [hsck, hscpos] at hmin
    rwa [getD_eq_getElem' seqs n [] hn, hqn] at hmin
  · intro j hj hlenj
    have hjlen : j < seqs.length := lt_trans hj h1.1
    have hjL : j ∈ longestIdxs seqs := by
      rw [mem_longestIdxs_iff]
      exact ⟨hjlen, by rw [hlenj, h1.2]⟩
    obtain ⟨pos, hpos, hposj⟩ := List.mem_iff_getElem.mp hjL
    have hsorted : (longestIdxs seqs).Pairwise (· < ·) := by
      rw [longestIdxs]
      exact (List.pairwise_lt_range _).filter _
    have hposk : pos < firstMinIdx (tiedScores seqs) := by
      by_contra hc
      push_neg at hc
      rcases eq_or_lt_of_le hc with he | hlt
      · have : (longestIdxs seqs).getD (firstMinIdx (tiedScores seqs)) 0 = j := by
          rw [he, getD_eq_getElem' _ pos 0 hpos, hposj]
        omega
      · have hgl := List.pairwise_iff_get.mp hsorted
          ⟨firstMinIdx (tiedScores seqs), hk⟩ ⟨pos, hpos⟩ hlt
        simp only [List.get_eq_getElem] at hgl
        rw [hposj, ← getD_eq_getElem' _ _ 0 hk] at hgl
        omega
    have hfirst := firstMinIdx_first (tiedScores seqs) pos hposk
    have hscpos : (tiedScores seqs).getD pos 0 = chiScore (seqs.getD j []) := by
      have h := getD_map_of_lt (fun ii => chiScore (seqs.getD ii []))
        (longestIdxs seqs) pos hpos 0 0
      rw [getD_eq_getElem' _ pos 0 hpos, hposj] at h
      exact h
    rw [hsck, hscpos] at hfirst
    exact hfirst

/-- Witness for C4 mirroring scenario C: two runs of equal maximal length
with mean chi-squares 1.2 and 0.5; the instantiated conclusion is combined
with the concrete check that the selector returns the run with mean 0.5. -/
theorem C4_sequence_selector_spec_witness :
    (∃ i, i < ([[⟨1, 1, -1, 6 / 5⟩], [⟨2, 2, -2, 1 / 2⟩]] :
        List (List MatchedPair)).length ∧
      selectSeq [[⟨1, 1, -1, 6 / 5⟩], [⟨2, 2, -2, 1 / 2⟩]] =
        ([[⟨1, 1, -1, 6 / 5⟩], [⟨2, 2, -2, 1 / 2⟩]] :
          List (List MatchedPair)).getD i [] ∧
      (∀ q ∈ ([[⟨1, 1, -1, 6 / 5⟩], [⟨2, 2, -2, 1 / 2⟩]] :
          List (List MatchedPair)), q.length ≤
        (([[⟨1, 1, -1, 6 / 5⟩], [⟨2, 2, -2, 1 / 2⟩]] :
          List (List MatchedPair)).getD i []).length) ∧
      (∀ q ∈ ([[⟨1, 1, -1, 6 / 5⟩], [⟨2, 2, -2, 1 / 2⟩]] :
          List (List MatchedPair)), q.length =
        (([[⟨1, 1, -1, 6 / 5⟩], [⟨2, 2, -2, 1 / 2⟩]] :
          List (List MatchedPair)).getD i []).length →
        chiScore (([[⟨1, 1, -1, 6 / 5⟩], [⟨2, 2, -2, 1 / 2⟩]] :
          List (List MatchedPair)).getD i []) ≤ chiScore q) ∧
      (∀ j, j < i →
        ((([[⟨1, 1, -1, 6 / 5⟩], [⟨2, 2, -2, 1 / 2⟩]] :
          List (List MatchedPair)).getD j []).length =
         (([[⟨1, 1, -1, 6 / 5⟩], [⟨2, 2, -2, 1 / 2⟩]] :
          List (List MatchedPair)).getD i []).length) →
        chiScore (([[⟨1, 1, -1, 6 / 5⟩], [⟨2, 2, -2, 1 / 2⟩]] :
          List (List MatchedPair)).getD i []) <
        chiScore (([[⟨1, 1, -1, 6 / 5⟩], [⟨2, 2, -2, 1 / 2⟩]] :
          List (List MatchedPair)).getD j []))) ∧
    selectSeq [[⟨1, 1, -1, 6 / 5⟩], [⟨2, 2, -2, 1 / 2⟩]] = [⟨2, 2, -2, 1 / 2⟩] :=
  ⟨C4_sequence_selector_spec [[⟨1, 1, -1, 6 / 5⟩], [⟨2, 2, -2, 1 / 2⟩]] (by decide),
   by with_unfolding_all decide⟩

theorem gos_length : ∀ ps : List ℚ,
    (generate_obs_series_spacings ps).length = ps.length - 1
  | [] => rfl
  | [_] => rfl
  | a :: b :: l => by
    have ih := gos_length (b :: l)
    simp only [generate_obs_series_spacings, List.length_cons] at ih ⊢
    omega

theorem gts_length : ∀ ps : List ℚ,
    (generate_thry_series ps).length = ps.length - 1
  | [] => rfl
  | [_] => rfl
  | a :: b :: l => by
    have ih := gts_length (b :: l)
    simp only [generate_thry_series, List.length_cons] at ih ⊢
    omega

theorem goe_length : ∀ es : List ℚ,
    (generate_obs_series_errorsSq es).length = es.length - 1
  | [] => rfl
  | [_] => rfl
  | a :: b :: l => by
    have ih := goe_length (b :: l)
    simp only [generate_obs_series_errorsSq, List.length_cons] at ih ⊢
    omega

theorem gos_getD : ∀ (ps : List ℚ) (i : ℕ), i + 1 < ps.length →
    (generate_obs_series_spacings ps).getD i 0 =
      |ps.getD i 0 - ps.getD (i + 1) 0| * 86400
  | [], i, h => by simp at h
  | [_], i, h => by
    simp only [List.length_cons, List.length_nil] at h
    omega
  | a :: b :: l, 0, _ => by simp [generate_obs_series_spacings]
  | a :: b :: l, i + 1, h => by
    have ih := gos_getD (b :: l) i (by simp only [List.length_cons] at h ⊢; omega)
    simpa [generate_obs_series_spacings] using ih

theorem gts_getD : ∀ (ps : List ℚ) (i : ℕ), i + 1 < ps.length →
    (generate_thry_series ps).getD i 0 =
      |ps.getD i 0 - ps.getD (i + 1) 0| * 86400
  | [], i, h => by simp at h
  | [_], i, h => by
    simp only [List.length_cons, List.length_nil] at h
    omega
  | a :: b :: l, 0, _ => by simp [generate_thry_series]
  | a :: b :: l, i + 1, h => by
    have ih := gts_getD (b :: l) i (by simp only [List.length_cons] at h ⊢; omega)
    simpa [generate_thry_series] using ih

theorem goe_getD : ∀ (es : List ℚ) (i : ℕ), i + 1 < es.length →
    (generate_obs_series_errorsSq es).getD i 0 =
      (es.getD i 0 ^ 2 + es.getD (i + 1) 0 ^ 2) * 86400 ^ 2
  | [], i, h => by simp at h
  | [_], i, h => by
    simp only [List.length_cons, List.length_nil] at h
    omega
  | a :: b :: l, 0, _ => by simp [generate_obs_series_errorsSq]
  | a :: b :: l, i + 1, h => by
    have ih := goe_getD (b :: l) i (by simp only [List.length_cons] at h ⊢; omega)
    simpa [generate_obs_series_errorsSq] using ih

theorem gosR_errors_getD : ∀ (psR esR : List ℝ), esR.length = psR.length →
    ∀ i, i + 1 < esR.length →
    ((generate_obs_series_R psR esR).2).getD i 0 =
      Real.sqrt (esR.getD i 0 ^ 2 + esR.getD (i + 1) 0 ^ 2) * 86400
  | a :: b :: l, e :: f :: m, hlen, 0, _ => by
    simp [generate_obs_series_R]
  | a :: b :: l, e :: f :: m, hlen, i + 1, hi => by
    have ih := gosR_errors_getD (b :: l) (f :: m)
      (by simp only [List.length_cons] at hlen ⊢; omega) i
      (by simp only [List.length_cons] at hi ⊢; omega)
    simpa [generate_obs_series_R] using ih
  | [], esR, hlen, i, hi => by
    rw [List.length_nil] at hlen
    omega
  | [a], esR, hlen, i, hi => by
    simp only [List.length_cons, List.length_nil] at hlen
    omega
  | a :: b :: l, [], hlen, i, hi => by simp at hi
  | a :: b :: l, [e], hlen, i, hi => by
    simp only [List.length_cons, List.length_nil] at hi
    omega

theorem sum_zip3 : ∀ (o t e : List ℚ), t.length = o.length → e.length = o.length →
    ((o.zip (t.zip e)).map (fun x => (x.1 - x.2.1) ^ 2 / x.2.2)).sum =
      ∑ i ∈ Finset.range o.length, (o.getD i 0 - t.getD i 0) ^ 2 / e.getD i 0
  | [], t, e, _, _ => by simp
  | a :: o, [], e, h1, _ => by simp at h1
  | a :: o, b :: t, [], _, h2 => by simp at h2
  | a :: o, b :: t, c :: e, h1, h2 => by
    have ih := sum_zip3 o t e (by simpa using h1) (by simpa using h2)
    simp only [List.zip_cons_cons, List.map_cons, List.sum_cons, List.length_cons]
    rw [Finset.sum_range_succ']
    simp only [List.getD_cons_succ, List.getD_cons_zero]
    rw [ih]
    ring

/-- C7: the spacing series builder behaves as specified: N-1 spacings of
absolute adjacent differences scaled by 86400 for the observed and the
theoretical series, propagated errors sqrt(e_i^2+e_(i+1)^2)*86400 for the
observed series (shown for the real valued translation, together with the
fact that the rational embedding carries exactly its square), and the
alignment chi-square as the error weighted sum of squared spacing
differences divided by N-1. -/
theorem C7_spacing_series_spec (ps es tps : List ℚ)
    (hlen : es.length = ps.length) (hlen2 : tps.length = ps.length) :
    SpacingSeriesSpec ps es tps := by
  have herrR : ∀ i, i + 1 < es.length →
      ((generate_obs_series_R (ps.map ((Rat.cast : ℚ → ℝ)))
          (es.map ((Rat.cast : ℚ → ℝ)))).2).getD i 0 =
        Real.sqrt ((es.getD i 0 : ℝ) ^ 2 + (es.getD (i + 1) 0 : ℝ) ^ 2) * 86400 := by
    intro i hi
    have h1 : i < es.length := by omega
    have := gosR_errors_getD (ps.map ((Rat.cast : ℚ → ℝ))) (es.map ((Rat.cast : ℚ → ℝ)))
      (by simp [hlen]) i (by simpa using hi)
    rwa [getD_map_of_lt _ es i h1 0 0, getD_map_of_lt _ es (i + 1) hi 0 0] at this
  have herrSq : ∀ i, i + 1 < es.length →
      ((generate_obs_series_errorsSq es).getD i 0 : ℝ) =
        (((generate_obs_series_R (ps.map ((Rat.cast : ℚ → ℝ)))
          (es.map ((Rat.cast : ℚ → ℝ)))).2).getD i 0) ^ 2 := by
    intro i hi
    rw [herrR i hi, goe_getD es i hi, mul_pow, Real.sq_sqrt (by positivity)]
    push_cast
    ring
  refine ⟨gos_length ps, gts_length tps, gos_getD ps, gts_getD tps,
    fun i hi => ⟨herrR i hi, herrSq i hi⟩, ?_⟩
  rw [seriesChi2]
  have hSlen : (generate_obs_series_spacings ps).length = ps.length - 1 :=
    gos_length ps
  have hTlen : (generate_thry_series tps).length =
      (generate_obs_series_spacings ps).length := by
    rw [hSlen, gts_length tps, hlen2]
  have hElen : (generate_obs_series_errorsSq es).length =
      (generate_obs_series_spacings ps).length := by
    rw [hSlen, goe_length es, hlen]
  rw [sum_zip3 _ _ _ hTlen hElen, hSlen]
  push_cast
  rw [Finset.sum_congr rfl]
  intro i hi
  have hi' : i + 1 < es.length := by
    rw [hlen]
    have := Finset.mem_range.mp hi
    omega
  have hE : ((generate_obs_series_errorsSq es).getD i 0 : ℝ) =
      ((es.getD i 0 : ℝ) ^ 2 + (es.getD (i + 1) 0 : ℝ) ^ 2) * 86400 ^ 2 := by
    rw [goe_getD es i hi']
    push_cast
    ring
  rw [div_pow, mul_pow, Real.sq_sqrt (by positivity), hE]

/-- Witness for C7 at the concrete observed segment of scenario A. -/
theorem C7_spacing_series_spec_witness :
    SpacingSeriesSpec [21 / 20, 61 / 50] [1 / 100, 1 / 100] [1, 11 / 10] :=
  C7_spacing_series_spec [21 / 20, 61 / 50] [1 / 100, 1 / 100] [1, 11 / 10]
    (by decide) (by decide)

/-- C10: in the per-segment loop of theoretical_pattern_from_dfrow the
np.delete calls of lines 189-205 return fresh arrays whose value the code
discards, so whenever the loop completes, the frequency and period arrays
available to the matcher at EVERY segment are the original, unmodified
input arrays. The second conjunct shows the removal is not vacuous: had
its result been kept, the array would have changed. -/
theorem C10_np_delete_no_effect :
    (∀ (freqs periods : List ℚ) (orders : List ℤ) (isFreq : Bool)
      (acc : List ℚ) (parts : List (List ℚ × List ℚ)) (out : List ℚ)
      (used : List (List ℚ × List ℚ)),
      theoretical_pattern_parts freqs periods orders isFreq acc parts =
        some (out, used) →
      used = parts.map (fun _ => (freqs, periods))) ∧
    npDeleteWhere [1, 2, 3] (fun x => decide (x ≤ 2)) = [3] := by
  constructor
  · intro freqs periods orders isFreq acc parts
    induction parts generalizing acc with
    | nil =>
      intro out used h
      simp only [theoretical_pattern_parts, Option.some.injEq, Prod.mk.injEq] at h
      simp [← h.2]
    | cons part rest ih =>
      obtain ⟨obs_part, obs_err_part⟩ := part
      intro out used h
      simp only [theoretical_pattern_parts] at h
      split at h
      · exact absurd h (by simp)
      · split at h
        · exact absurd h (by simp)
        · rename_i heq2
          simp only [Option.some.injEq, Prod.mk.injEq] at h
          rw [List.map_cons, ← h.2, ih _ _ _ heq2]
  · decide

/-- Witness for C10: a two-segment observed pattern (period observable),
where the loop completes and both segments receive the original arrays. -/
theorem C10_np_delete_no_effect_witness :
    theoretical_pattern_parts [] [1, 2, 3, 4] [-4, -3, -2, -1] false []
        [([1, 2], [1, 1]), ([3, 4], [1, 1])] =
      some ([1, 2, 0, 3, 4],
        [([], [1, 2, 3, 4]), ([], [1, 2, 3, 4])]) ∧
    ([([], [1, 2, 3, 4]), ([], [1, 2, 3, 4])] :
        List (List ℚ × List ℚ)) =
      ([([1, 2], [1, 1]), ([3, 4], [1, 1])] : List (List ℚ × List ℚ)).map
        (fun _ => (([] : List ℚ), ([1, 2, 3, 4] : List ℚ))) :=
  ⟨by with_unfolding_all decide,
   C10_np_delete_no_effect.1 [] [1, 2, 3, 4] [-4, -3, -2, -1] false []
     [([1, 2], [1, 1]), ([3, 4], [1, 1])] [1, 2, 0, 3, 4]
     [([], [1, 2, 3, 4]), ([], [1, 2, 3, 4])]
     (by with_unfolding_all decide)⟩

end FOAM
